import Mathlib

/-!
Verification of the FormPilot resilience/orchestration layer.

This file shallowly embeds the Python sources `automation_agent.py` and
`orchestrator.py`:

* text is modelled as `List Char` (Python `str` by code points);
* Python `dict`s are modelled as insertion-ordered association lists with
  unique keys, with Python's assignment semantics (`dictSet`);
* the fallible external collaborators (executor, text generator, cache
  backing store) are modelled as oracle parameters (`Option`-valued inputs
  or `Nat → ExecOutcome` streams), exactly as the call sites consume them;
* `random.uniform (0, b)` is modelled as a parameter `j` together with the
  hypothesis `0 ≤ j ∧ j ≤ b`;
* wall-clock times are rationals.

Each definition is a direct translation of the corresponding Python
function, named after it where Lean allows.
-/

namespace FormPilot

/-! ### Python string primitives (shared by several components) -/

/-- Python text as a list of characters (compared by code point). -/
abbrev Text := List Char

/-- Whitespace as stripped by Python `str.strip()` (ASCII subset, which is
all the sources ever produce). -/
def pyIsSpace (c : Char) : Bool :=
  c == ' ' || c == '\t' || c == '\n' || c == '\r'

/-- Python `str.strip()`. -/
def pyStrip (s : Text) : Text :=
  ((s.dropWhile pyIsSpace).reverse.dropWhile pyIsSpace).reverse

/-- Python `s.rstrip('. ')` as used in `_generate_private_description` and
`_sanitize_private_description`. -/
def pyRstripDotSpace (s : Text) : Text :=
  (s.reverse.dropWhile (fun c => c == '.' || c == ' ')).reverse

/-- Helper for `pyRfind`: index of the last occurrence of `c`. -/
def lastIndexOfAux (c : Char) : Text → Nat → Option Nat → Option Nat
  | [], _, acc => acc
  | x :: xs, i, acc => lastIndexOfAux c xs (i + 1) (if x == c then some i else acc)

/-- Python `s.rfind(c)`: `some i` for the last occurrence, `none` for -1. -/
def pyRfind (s : Text) (c : Char) : Option Nat :=
  lastIndexOfAux c s 0 none

/-- Python `s.endswith(('.', '!', '?'))`. -/
def endsWithPunct (s : Text) : Bool :=
  match s.getLast? with
  | some c => c == '.' || c == '!' || c == '?'
  | none => false

/-- Python `if not s.endswith(('.', '!', '?')): s += '.'` (the variant in
`enforce_char_limits` for Description, which has no `rstrip`). -/
def ensurePunct (s : Text) : Text :=
  if endsWithPunct s then s else s ++ ['.']

/-- Python `if not s.endswith(('.', '!', '?')): s = s.rstrip('. '); s += '.'`
(the variant in `_generate_private_description` and
`_sanitize_private_description`). -/
def ensurePunctRstrip (s : Text) : Text :=
  if endsWithPunct s then s else pyRstripDotSpace s ++ ['.']

/-- Python `needle in hay` for a prefix position (model of `str.startswith`). -/
def textStarts : Text → Text → Bool
  | [], _ => true
  | _ :: _, [] => false
  | a :: as, b :: bs => a == b && textStarts as bs

/-- Python `needle in hay` substring containment. -/
def textContains (needle : Text) : Text → Bool
  | [] => textStarts needle []
  | hay@(_ :: rest) => textStarts needle hay || textContains needle rest

/-- Python `str.lower()` (ASCII case folding, which covers every literal the
sources compare against). -/
def pyLower (s : Text) : Text := s.map Char.toLower

/-- The common cutoff search: `t.rfind(".")`, falling back to
`t.rfind(" ")` when no dot is found. -/
def truncCutoff (t : Text) : Option Nat :=
  match pyRfind t '.' with
  | some i => some i
  | none => pyRfind t ' '

/-! ### BackoffController: `WebFormAutomationAgent._compute_backoff`
(automation_agent.py lines 33-52) -/

/-- The deterministic (pre-jitter) part of `_compute_backoff` as a function
of the post-increment in-window failure count `c = self._recent_429`:
`exponent = min(max(c - 1, 0), 6)`, `backoff = base * 2 ** exponent`, then
`if c >= 5: backoff = max(backoff, 10.0)`.  (`max (c-1) 0` is Nat
subtraction here, which agrees with the Python expression.) -/
def backoffDelay (base : ℚ) (c : Nat) : ℚ :=
  let backoff := base * 2 ^ (min (c - 1) 6)
  if 5 ≤ c then max backoff 10 else backoff

/-- The value returned by `_compute_backoff`: `backoff + jitter`, where
`jitter = random.uniform(0, min(1.0, backoff * 0.1))` is modelled as the
parameter `j` (its range becomes a hypothesis of the theorems). -/
def computeBackoff (base : ℚ) (c : Nat) (j : ℚ) : ℚ :=
  backoffDelay base c + j

/-- The jitter upper bound `min(1.0, backoff * 0.1)` drawn by the code
(note: computed from the post-floor backoff). -/
def jitterBound (base : ℚ) (c : Nat) : ℚ :=
  min 1 (backoffDelay base c * (1 / 10))

/-- Modelled from the spec (§4.1 wording, for refinement comparison only):
delay = `base * 2^min(count-1, 6)`, floored at 10 seconds once count ≥ 5. -/
def backoffDelaySpecWording (base : ℚ) (c : Nat) : ℚ :=
  let d := base * 2 ^ (min (c - 1) 6)
  if 5 ≤ c then max d 10 else d

/-- Mutable rate-limit state of `WebFormAutomationAgent`
(`_recent_429`, `_first_429_ts`, `_circuit_open`). -/
structure BackoffState where
  recent429 : Nat
  first429Ts : Option ℚ
  circuitOpen : Bool
deriving Repr

/-- The reset test `self._first_429_ts is None or (now - (self._first_429_ts or 0)) > 60`. -/
def windowExpired (s : BackoffState) (now : ℚ) : Bool :=
  match s.first429Ts with
  | none => true
  | some t => decide (60 < now - t)

/-- One full call of `_compute_backoff` at wall-clock time `now`: window
reset, increment, exponential-with-floor delay, circuit flag.  Returns the
new state and the pre-jitter delay (the jitter is added by
`computeBackoff`). -/
def backoffStep (base : ℚ) (s : BackoffState) (now : ℚ) : BackoffState × ℚ :=
  let s1 := if windowExpired s now then
      { recent429 := 0, first429Ts := some now, circuitOpen := false }
    else s
  let c := s1.recent429 + 1
  let opened := if 5 ≤ c then true else s1.circuitOpen
  ({ recent429 := c, first429Ts := s1.first429Ts, circuitOpen := opened },
   backoffDelay base c)

/-- State after a sequence of `_compute_backoff` calls at the given times. -/
def backoffRun (base : ℚ) (s : BackoffState) (times : List ℚ) : BackoffState :=
  times.foldl (fun st t => (backoffStep base st t).1) s

/-- Constructor state: `_recent_429 = 0`, `_first_429_ts = None`,
`_circuit_open = False`. -/
def initBackoffState : BackoffState :=
  { recent429 := 0, first429Ts := none, circuitOpen := false }

/-! ### SubmissionController retry loop:
`WebFormAutomationAgent.submit_activity` (automation_agent.py 697-735) and
the per-record loop of `FormAutomationOrchestrator.run_automation`
(orchestrator.py 484-542). -/

/-- One executor invocation (`await self.agent.arun(prompt)`): either a
normal response whose `.content` may be `None`, or a raised exception
carrying its message string. -/
inductive ExecOutcome where
  | success (content : Option Text)
  | failure (msg : Text)
deriving Repr

/-- The test `'rate' in error_msg.lower() or '429' in error_msg`
(classification used inside `submit_activity`). -/
def isRateMsg (msg : Text) : Bool :=
  textContains "rate".toList (pyLower msg) || textContains "429".toList msg

/-- The test `"not found in the current page snapshot" in error_msg or "Ref" in error_msg`. -/
def isSnapshotMsg (msg : Text) : Bool :=
  textContains "not found in the current page snapshot".toList msg ||
    textContains "Ref".toList msg

/-- How a single `submit_activity` call terminates. -/
inductive SubmitResult where
  /-- `return getattr(response, 'content', None)` after a successful attempt. -/
  | returned (content : Option Text)
  /-- The `for attempt in range(max_attempts)` loop was exhausted by
  `continue`s (rate-limit path on the last attempt): the function falls off
  the loop and returns `None` without raising. -/
  | returnedNoneExhausted
  /-- `raise Exception(f"Failed after {max_attempts} attempts due to snapshot errors")`. -/
  | raisedSnapshotExhausted
  /-- `raise e` (the non-rate, non-snapshot branch). -/
  | raisedFatal (msg : Text)
deriving Repr, DecidableEq

/-- Whether the result is an exception propagating to the caller. -/
def SubmitResult.isRaise : SubmitResult → Bool
  | .raisedSnapshotExhausted => true
  | .raisedFatal _ => true
  | _ => false

/-- The attempt loop of `submit_activity`.  `exec i` is the outcome of the
`i`-th executor invocation of the whole record (a global stream, so that
the orchestrator's re-invocations can be chained), `fuel` is the number of
loop iterations left (`max_attempts - attempt`).  Besides the result it
returns the number of executor attempts consumed.

Rate-limit errors (`isRateMsg`) back off and `continue`; snapshot errors
(`isSnapshotMsg`) resync and `continue` while `attempt < max_attempts - 1`
(that is, while `fuel > 1` here) and otherwise raise the terminal snapshot
exception; all other errors are re-raised immediately. -/
def submitGo (exec : Nat → ExecOutcome) : Nat → Nat → SubmitResult × Nat
  | _, 0 => (.returnedNoneExhausted, 0)
  | i, fuel + 1 =>
    match exec i with
    | .success c => (.returned c, 1)
    | .failure msg =>
      if isRateMsg msg then
        let r := submitGo exec (i + 1) fuel
        (r.1, r.2 + 1)
      else if isSnapshotMsg msg then
        if 0 < fuel then
          let r := submitGo exec (i + 1) fuel
          (r.1, r.2 + 1)
        else (.raisedSnapshotExhausted, 1)
      else (.raisedFatal msg, 1)

/-- The retry loop of `submit_activity` with `max_attempts = 3`, starting at
executor-invocation index `start`. -/
def submitActivityLoop (exec : Nat → ExecOutcome) (start : Nat) : SubmitResult × Nat :=
  submitGo exec start 3

/-- The per-record loop of `run_automation` (`max_activity_retries = 3`,
non-interactive mode): each exception from `submit_activity` is caught and,
while retries remain, the whole submission is re-attempted after a sleep
(whose duration depends on the error class but not the control flow); a
normal return is treated as success.  Returns (succeeded?, total executor
attempts consumed). -/
def processRecordGo (exec : Nat → ExecOutcome) : Nat → Nat → Bool × Nat
  | _, 0 => (false, 0)
  | start, r + 1 =>
    let sr := submitActivityLoop exec start
    if sr.1.isRaise then
      if 0 < r then
        let rest := processRecordGo exec (start + sr.2) r
        (rest.1, sr.2 + rest.2)
      else (false, sr.2)
    else (true, sr.2)

/-- One record processed by `run_automation` from a fresh executor stream. -/
def processRecord (exec : Nat → ExecOutcome) : Bool × Nat :=
  processRecordGo exec 0 3

/-! ### OptionMatcher: `WebFormAutomationAgent._choose_tech_areas`
(automation_agent.py lines 372-466) -/

/-- A `re` word character as used by `re.findall(r"\w+", ...)` (ASCII range,
which covers all option tables in the source). -/
def isWordChar (c : Char) : Bool := c.isAlphanum || c == '_'

/-- Helper for `splitTokens`: accumulates the current run of word chars. -/
def splitTokensAux : Text → Text → List Text
  | [], cur => if cur.isEmpty then [] else [cur.reverse]
  | c :: rest, cur =>
    if isWordChar c then splitTokensAux rest (c :: cur)
    else if cur.isEmpty then splitTokensAux rest []
    else cur.reverse :: splitTokensAux rest []

/-- Python `re.findall(r"\w+", s)`: the maximal runs of word characters. -/
def splitTokens (s : Text) : List Text := splitTokensAux s []

/-- Python `set(...)` of tokens, as the deduplicated list in first-seen
order (only membership and cardinality of the set are ever used). -/
def dedup (l : List Text) : List Text :=
  l.foldl (fun acc x => if acc.contains x then acc else acc ++ [x]) []

/-- The token set `set(re.findall(r"\w+", f"{title} {description}".lower()))`
with both parts stripped first.  Kept as a plain list: only membership is
used, for which deduplication is irrelevant. -/
def choiceTokens (title description : Text) : List Text :=
  splitTokens (pyLower (pyStrip title ++ [' '] ++ pyStrip description))

/-- The `score` closure: `overlap = len(tokens & otoks)` plus
`sum(1 for t in otoks if t in tokens)` — both terms count the distinct
shared tokens, so the score is twice the overlap. -/
def scoreOpt (tokens : List Text) (opt : Text) : Nat :=
  let otoks := dedup (splitTokens (pyLower opt))
  let overlap := (otoks.filter (fun t => tokens.contains t)).length
  overlap + (otoks.filter (fun t => tokens.contains t)).length

/-- The comparator realised by Python's `list.sort(reverse=True)` on
`(score, option)` tuples: descending score, and — crucially — descending
code-point order of the option string when scores tie. -/
def pyPairGE (a b : Nat × Text) : Bool :=
  if a.1 = b.1 then ! decide (a.2 < b.2) else decide (b.1 < a.1)

/-- Stable insertion of `x` in front of the first element it `le`-precedes. -/
def insertSorted {α : Type} (le : α → α → Bool) (x : α) : List α → List α
  | [] => [x]
  | y :: ys => if le x y then x :: y :: ys else y :: insertSorted le x ys

/-- A stable comparison sort.  Python's `list.sort` is a stable sort; on a
total, transitive, antisymmetric comparator such as `pyPairGE` every stable
sort produces the same list, so this models `scored.sort(reverse=True)`
exactly. -/
def sortStable {α : Type} (le : α → α → Bool) (l : List α) : List α :=
  l.foldr (insertSorted le) []

/-- The bounded option pools (`tech_options['primary' / 'additional']`). -/
structure TechOptions where
  primary : List Text
  additional : List Text

/-- The substitution `if not primary_opts and additional_opts: primary_opts = additional_opts`. -/
def effPrimary (tech : TechOptions) : List Text :=
  if tech.primary.isEmpty && !tech.additional.isEmpty then tech.additional
  else tech.primary

/-- The list `scored_primary = [(score(opt), opt) for opt in primary_opts]` followed
by `scored_primary.sort(reverse=True)`. -/
def scoredPrimaryList (tokens : List Text) (opts : List Text) : List (Nat × Text) :=
  sortStable pyPairGE (opts.map (fun o => (scoreOpt tokens o, o)))

/-- The `primary_choice` selection chain: top-scored option when its score
is positive, else the first option of the (substituted) primary list, else
the first additional option, else `None`. -/
def chooseMainOpt (tokens : List Text) (primaryOpts additionalOpts : List Text) :
    Option Text :=
  match (scoredPrimaryList tokens primaryOpts).head? with
  | some so => if 0 < so.1 then some so.2 else primaryOpts.head?
  | none =>
    match primaryOpts.head? with
    | some p => some p
    | none => additionalOpts.head?

/-- The first additional-choice loop: walk the sorted scored candidates,
keep distinct options, stop at two. -/
def pickDistinct : List (Nat × Text) → List Text → List Text
  | [], acc => acc
  | so :: rest, acc =>
    let acc' := if acc.contains so.2 then acc else acc ++ [so.2]
    if 2 ≤ acc'.length then acc' else pickDistinct rest acc'

/-- The fallback loop over `pool = [o for o in (additional_opts +
primary_opts) if o != primary_choice]` (its `o is not None` test is always
true for strings). -/
def padFromPool : List Text → List Text → List Text
  | [], acc => acc
  | o :: rest, acc =>
    let acc' := if acc.contains o then acc else acc ++ [o]
    if 2 ≤ acc'.length then acc' else padFromPool rest acc'

/-- The padding loop `while len(l) < 2: l.append("")`. -/
def padTo2 : List Text → List Text
  | [] => [[], []]
  | [a] => [a, []]
  | l => l

/-- The final dedup-and-drop-empties loop (`seen` / `cleaned_additional`). -/
def cleanAdditional : List Text → List Text → List Text
  | [], acc => acc
  | a :: rest, acc =>
    if a.isEmpty then cleanAdditional rest acc
    else
      let acc' := if acc.contains a then acc else acc ++ [a]
      if 2 ≤ acc'.length then acc' else cleanAdditional rest acc'

/-- The additional-choices selection (scored walk, pool fallback) before
the final padding and cleaning. -/
def additionalPick (tokens : List Text) (primaryOpts additionalOpts : List Text)
    (primaryChoice : Option Text) : List Text :=
  let candidatesForAdd :=
    additionalOpts ++ primaryOpts.filter (fun o => !additionalOpts.contains o)
  let scoredAdd :=
    sortStable pyPairGE
      ((candidatesForAdd.filter (fun o => decide (primaryChoice ≠ some o))).map
        (fun o => (scoreOpt tokens o, o)))
  let firstPick := pickDistinct scoredAdd []
  if firstPick.length < 2 then
    padFromPool
      ((additionalOpts ++ primaryOpts).filter (fun o => decide (primaryChoice ≠ some o)))
      firstPick
  else firstPick

/-- Full `_choose_tech_areas(title, description, tech_options)`, assembled from
the pieces above in source order. -/
def chooseTechAreas (title description : Text) (tech : TechOptions) :
    Text × List Text :=
  let tokens := choiceTokens title description
  let primaryOpts := effPrimary tech
  let additionalOpts := tech.additional
  let primaryChoice := chooseMainOpt tokens primaryOpts additionalOpts
  (primaryChoice.getD [],
   padTo2 (cleanAdditional
     (padTo2 (additionalPick tokens primaryOpts additionalOpts primaryChoice)) []))

/-! ### Python dicts and record values (shared by normalization and the
submission preparation) -/

/-- A Python value as stored in an activity record. -/
inductive PyValue where
  | none
  | str (s : String)
  | int (n : Int)
  | strList (l : List String)
deriving DecidableEq, Repr

/-- A Python `dict` with string keys: an insertion-ordered association
list whose keys are unique (every constructor below preserves this). -/
abbrev PyDict := List (String × PyValue)

/-- Python `d.get(k)` (also modelling `k in d` via `isSome`). -/
def dictGet (d : PyDict) (k : String) : Option PyValue :=
  (d.find? (fun p => p.1 == k)).map (fun p => p.2)

/-- Python `d[k] = v`: overwrite in place when the key exists (keeping its
position), append otherwise. -/
def dictSet (d : PyDict) (k : String) (v : PyValue) : PyDict :=
  if d.any (fun p => p.1 == k) then
    d.map (fun p => if p.1 == k then (k, v) else p)
  else d ++ [(k, v)]

/-- Python truthiness of a record value. -/
def pyTruthy : PyValue → Bool
  | .none => false
  | .str s => !s.isEmpty
  | .int n => n != 0
  | .strList l => !l.isEmpty

/-! ### RecordNormalizer: `FormAutomationOrchestrator._normalize_activity_keys`
(orchestrator.py lines 330-349) -/

/-- The legacy-synonym table `mapping.get(k, k)`. -/
def canonKey (k : String) : String :=
  if k == "Activity Type" then "Category"
  else if k == "Primary Technology Area" then "Main Technology"
  else if k == "Additional Technology Areas" then "Additional Technologies"
  else if k == "Private Description" then "Internal Notes"
  else if k == "Number of Views" then "Views"
  else if k == "Activity URL" then "URL"
  else if k == "Target Audience" then "Audience"
  else if k == "Published Date" then "Date"
  else k

/-- The rebuild loop `for k, v in activity.items(): act[mapping.get(k, k)] = v`. -/
def canonFold (activity : PyDict) : PyDict :=
  activity.foldl (fun acc kv => dictSet acc (canonKey kv.1) kv.2) []

/-- The test `'Quantity' not in act or act.get('Quantity') in (None, "")`. -/
def quantityMissing (d : PyDict) : Bool :=
  match dictGet d "Quantity" with
  | Option.none => true
  | Option.some v => v == PyValue.none || v == PyValue.str ""

/-- Full `_normalize_activity_keys(activity)`: map legacy key names to canonical
ones (collisions resolved last-write-wins in iteration order) and default
`Quantity` to 1 when absent, `None` or empty. -/
def normalizeActivityKeys (activity : PyDict) : PyDict :=
  let act := canonFold activity
  if quantityMissing act then dictSet act "Quantity" (PyValue.int 1) else act

/-! ### Submission preparation: the field transforms at the top of
`WebFormAutomationAgent.submit_activity` (automation_agent.py 468-564),
together with `_generate_private_description` (243-262). -/

/-- Python `re.sub(r"https?://\S+", "", text)`: drop every maximal non-space run
that starts with an URL scheme. -/
def stripUrls : Text → Text
  | [] => []
  | c :: rest =>
    if textStarts "http://".toList (c :: rest) ||
        textStarts "https://".toList (c :: rest) then
      stripUrls (rest.dropWhile (fun x => !pyIsSpace x))
    else c :: stripUrls rest
termination_by l => l.length
decreasing_by
  · exact Nat.lt_succ_of_le (List.dropWhile_sublist _).length_le
  · exact Nat.lt_succ_self _

/-- Full `_generate_private_description(description)`: normalize dashes, drop
URLs, strip; empty input falls back to a fixed sentence; cap at 400
characters preferring a sentence (then word) boundary; force terminal
punctuation (with `rstrip('. ')` first). -/
def generatePrivateDescription (description : Text) : Text :=
  let text := pyStrip (stripUrls (pyStrip
    (description.map (fun c => if c = '—' then '-' else c))))
  if text.isEmpty then
    "This is a concise internal summary for tracking this activity.".toList
  else
    let capped :=
      if 400 < text.length then
        pyStrip (match truncCutoff (text.take 400) with
          | Option.some i => text.take i
          | Option.none => text.take 400)
      else text
    ensurePunctRstrip capped

/-- The fallback audience list of `submit_activity`. -/
def defaultAudience : List String :=
  ["Developer", "IT Pro", "Business Decision Maker", "Technical Decision Maker",
   "Student"]

/-- The audience source `getattr(self, '_target_audience_options', None)` or fallback:
the stored options are used only when the attribute is set and truthy. -/
def submitAudience (taOptions : Option (List String)) : List String :=
  match taOptions with
  | Option.some l => if l.isEmpty then defaultAudience else l
  | Option.none => defaultAudience

/-- Full `_match_choice(choice, pool)`: exact case-insensitive match first, then
substring match, else the empty string. -/
def matchChoice (choice : Text) (pool : List Text) : Text :=
  if choice.isEmpty then []
  else
    match pool.find? (fun p => !p.isEmpty && (pyLower p == pyLower choice)) with
    | Option.some p => p
    | Option.none =>
      match pool.find? (fun p => !p.isEmpty && textContains (pyLower choice) (pyLower p)) with
      | Option.some p => p
      | Option.none => []

/-- The `cleaned_additional` loop of `submit_activity`: map each chosen
additional technology back into the portal pool via `_match_choice`,
keeping it verbatim only when it is literally in the pool, deduplicating. -/
def submitCleanAdditional (portalPool : List Text) : List Text → List Text → List Text
  | [], acc => acc
  | a :: rest, acc =>
    if a.isEmpty then submitCleanAdditional portalPool rest acc
    else
      let matched := matchChoice a portalPool
      if !matched.isEmpty && !acc.contains matched then
        submitCleanAdditional portalPool rest (acc ++ [matched])
      else if !acc.contains a then
        (if portalPool.contains a then
          submitCleanAdditional portalPool rest (acc ++ [a])
         else submitCleanAdditional portalPool rest acc)
      else submitCleanAdditional portalPool rest acc

/-- Read a string field the way `submit_activity` does
(`activity_data.get(k, '')`, values of other shapes never reach the string
operations in the modelled runs). -/
def getStrField (d : PyDict) (k : String) : Text :=
  match dictGet d k with
  | Option.some (PyValue.str s) => s.toList
  | _ => []

/-- The technology resolution of `submit_activity`: heuristic choice via
`_choose_tech_areas`, then validation of the main choice against the
portal pools (first-option fallback when nothing matches), then the
cleaned additional list padded to two slots. -/
def submitTech (tech : TechOptions) (title desc : Text) : Text × List Text :=
  let choice := chooseTechAreas title desc tech
  let validated0 := matchChoice choice.1 (tech.primary ++ tech.additional)
  let validatedPrimary :=
    if validated0.isEmpty && !(tech.primary ++ tech.additional).isEmpty then
      (tech.primary ++ tech.additional).headD []
    else validated0
  (validatedPrimary,
   padTo2 (submitCleanAdditional (tech.additional ++ tech.primary) choice.2 []))

/-- The record-mutating prefix of `submit_activity`, acting on the working
copy made by its first statement `activity_data = dict(activity_data)`:
build the audience list, resolve the technology fields, and derive
`Internal Notes` when missing/falsy.  (`self._tech_options` is always a
truthy two-key dict at this point — the fallback table is installed when it
is `None` — so the technology branch always runs.)  The remainder of
`submit_activity` only reads `activity_data`. -/
def submitActivityPrepare (taOptions : Option (List String)) (tech : TechOptions)
    (record : PyDict) : PyDict :=
  let a1 := dictSet record "Audience" (PyValue.strList (submitAudience taOptions))
  let tsel := submitTech tech (getStrField a1 "Title") (getStrField a1 "Description")
  let a2 := dictSet a1 "Main Technology" (PyValue.str (String.mk tsel.1))
  let a3 := dictSet a2 "Additional Technologies"
    (PyValue.strList (tsel.2.map String.mk))
  if pyTruthy ((dictGet a3 "Internal Notes").getD PyValue.none) then a3
  else dictSet a3 "Internal Notes"
    (PyValue.str (String.mk (generatePrivateDescription (getStrField a3 "Description"))))

/-! ### Character-limit enforcement: Description branch of
`FormAutomationOrchestrator.enforce_char_limits` (orchestrator.py 244-284) -/

/-- The generation-success path: `new_desc = resp.content.strip()`, and only
when it still exceeds 850 characters, truncate at the last sentence (or
word) boundary inside the first 850 characters and force terminal
punctuation.  A result of at most 850 characters is stored as-is. -/
def rewriteDescGenSuccess (content : Text) : Text :=
  let s := pyStrip content
  if 850 < s.length then
    ensurePunct (pyStrip (match truncCutoff (s.take 850) with
      | some i => s.take i
      | none => s.take 850))
  else s

/-- The generation-failure (local) fallback: `tmp = desc[:850]`, cut at the
last `.` (else last space, else keep all of `tmp`), strip, force terminal
punctuation. -/
def rewriteDescFallback (desc : Text) : Text :=
  let tmp := desc.take 850
  ensurePunct (pyStrip (match truncCutoff tmp with
    | some i => tmp.take i
    | none => tmp))

/-- The generate-or-fallback chain for a too-long Description, with the
text-generation collaborator's response as an oracle (`none` = it raised). -/
def enforceDescriptionGen (gen : Option Text) (desc : Text) : Text :=
  match gen with
  | some content => rewriteDescGenSuccess content
  | none => rewriteDescFallback desc

/-- The full Description branch of `enforce_char_limits` for one record:
no-op at 1000 characters or less; otherwise a truthy cached rewrite is
stored verbatim, else the generate-or-fallback chain runs. -/
def enforceDescription (cached : Option Text) (gen : Option Text) (desc : Text) : Text :=
  if 1000 < desc.length then
    match cached with
    | some c => if c.isEmpty then enforceDescriptionGen gen desc else c
    | none => enforceDescriptionGen gen desc
  else desc

/-! ## Lemmas -/

/-! #### Backoff lemmas -/

lemma backoffDelay_eq_specWording (base : ℚ) (c : Nat) :
    backoffDelay base c = backoffDelaySpecWording base c := rfl

lemma le_backoffDelay_of_five_le (base : ℚ) {c : Nat} (h : 5 ≤ c) :
    (10 : ℚ) ≤ backoffDelay base c := by
  unfold backoffDelay
  simp only [h, if_true]
  exact le_max_right _ _

lemma backoffDelay_mono {base : ℚ} (hb : 0 ≤ base) {c c' : Nat} (h : c ≤ c') :
    backoffDelay base c ≤ backoffDelay base c' := by
  have hpow : base * 2 ^ (min (c - 1) 6) ≤ base * 2 ^ (min (c' - 1) 6) := by
    apply mul_le_mul_of_nonneg_left _ hb
    apply pow_le_pow_right₀ (by norm_num)
    exact min_le_min (Nat.sub_le_sub_right h 1) le_rfl
  unfold backoffDelay
  by_cases h5 : 5 ≤ c
  · have h5' : 5 ≤ c' := le_trans h5 h
    simp only [h5, h5', if_true]
    exact max_le_max hpow le_rfl
  · by_cases h5' : 5 ≤ c'
    · simp only [h5, h5', if_true, if_false]
      exact le_trans hpow (le_max_left _ _)
    · simp only [h5, h5', if_false]
      exact hpow

/-- The window-start timestamp recorded in the state never exceeds the
latest signal time processed so far. -/
lemma backoffRun_first_le (base : ℚ) (bound : ℚ) :
    ∀ (times : List ℚ) (s : BackoffState),
      (∀ t ∈ times, t ≤ bound) →
      (s.first429Ts = none ∨ ∃ t0, s.first429Ts = some t0 ∧ t0 ≤ bound) →
      ((backoffRun base s times).first429Ts = none ∨
        ∃ t0, (backoffRun base s times).first429Ts = some t0 ∧ t0 ≤ bound)
  | [], s, _, hs => hs
  | t :: ts, s, hts, hs => by
    have ht : t ≤ bound := hts t (by simp)
    have hts' : ∀ u ∈ ts, u ≤ bound := fun u hu => hts u (by simp [hu])
    have hstep : ((backoffStep base s t).1.first429Ts = none ∨
        ∃ t0, (backoffStep base s t).1.first429Ts = some t0 ∧ t0 ≤ bound) := by
      unfold backoffStep
      by_cases hw : windowExpired s t
      · exact Or.inr ⟨t, by simp [hw], ht⟩
      · simpa [hw] using hs
    simpa [backoffRun] using
      backoffRun_first_le base bound ts (backoffStep base s t).1 hts' hstep

lemma mem_insertSorted {α : Type} (le : α → α → Bool) (x a : α) :
    ∀ l : List α, (a ∈ insertSorted le x l ↔ a = x ∨ a ∈ l)
  | [] => by simp [insertSorted]
  | y :: ys => by
    unfold insertSorted
    by_cases h : le x y
    · simp [h]
    · simp only [h, Bool.false_eq_true, if_false, List.mem_cons,
        mem_insertSorted le x a ys]
      tauto

lemma length_insertSorted {α : Type} (le : α → α → Bool) (x : α) :
    ∀ l : List α, (insertSorted le x l).length = l.length + 1
  | [] => rfl
  | y :: ys => by
    unfold insertSorted
    by_cases h : le x y
    · simp [h]
    · simp [h, length_insertSorted le x ys]

lemma mem_sortStable {α : Type} (le : α → α → Bool) (a : α) :
    ∀ l : List α, (a ∈ sortStable le l ↔ a ∈ l)
  | [] => by simp [sortStable]
  | x :: xs => by
    show a ∈ insertSorted le x (sortStable le xs) ↔ _
    rw [mem_insertSorted, mem_sortStable le a xs]
    simp

lemma length_sortStable {α : Type} (le : α → α → Bool) :
    ∀ l : List α, (sortStable le l).length = l.length
  | [] => rfl
  | x :: xs => by
    show (insertSorted le x (sortStable le xs)).length = _
    rw [length_insertSorted, length_sortStable le xs]
    rfl

lemma pairwise_insertSorted {α : Type} (le : α → α → Bool)
    (trans : ∀ a b c, le a b = true → le b c = true → le a c = true)
    (total : ∀ a b, (le a b || le b a) = true) (x : α) :
    ∀ l : List α, List.Pairwise (fun a b => le a b = true) l →
      List.Pairwise (fun a b => le a b = true) (insertSorted le x l)
  | [], _ => by simp [insertSorted]
  | y :: ys, h => by
    rcases List.pairwise_cons.mp h with ⟨hy, hys⟩
    unfold insertSorted
    by_cases hxy : le x y
    · simp only [hxy, if_true]
      refine List.pairwise_cons.mpr ⟨?_, h⟩
      intro b hb
      rcases List.mem_cons.mp hb with rfl | hb'
      · exact hxy
      · exact trans x y b hxy (hy b hb')
    · have hxy' : le x y = false := by
        simpa [Bool.not_eq_true] using hxy
      have hyx : le y x = true := by
        simpa [hxy'] using total x y
      simp only [hxy', Bool.false_eq_true, if_false]
      refine List.pairwise_cons.mpr ⟨?_, pairwise_insertSorted le trans total x ys hys⟩
      intro b hb
      rcases (mem_insertSorted le x b ys).mp hb with rfl | hb'
      · exact hyx
      · exact hy b hb'

lemma sorted_sortStable {α : Type} (le : α → α → Bool)
    (trans : ∀ a b c, le a b = true → le b c = true → le a c = true)
    (total : ∀ a b, (le a b || le b a) = true) :
    ∀ l : List α, List.Pairwise (fun a b => le a b = true) (sortStable le l)
  | [] => by simp [sortStable]
  | x :: xs =>
    pairwise_insertSorted le trans total x (sortStable le xs)
      (sorted_sortStable le trans total xs)

/-! #### OptionMatcher lemmas -/

lemma chooseTechAreas_fst (title description : Text) (tech : TechOptions) :
    (chooseTechAreas title description tech).1 =
      (chooseMainOpt (choiceTokens title description) (effPrimary tech)
        tech.additional).getD [] := rfl

lemma chooseTechAreas_snd (title description : Text) (tech : TechOptions) :
    (chooseTechAreas title description tech).2 =
      padTo2 (cleanAdditional
        (padTo2 (additionalPick (choiceTokens title description) (effPrimary tech)
          tech.additional
          (chooseMainOpt (choiceTokens title description) (effPrimary tech)
            tech.additional))) []) := rfl

lemma cleanAdditional_length_le :
    ∀ (l acc : List Text), acc.length ≤ 1 → (cleanAdditional l acc).length ≤ 2
  | [], acc, h => by simpa [cleanAdditional] using Nat.le_succ_of_le h
  | a :: rest, acc, h => by
    unfold cleanAdditional
    by_cases ha : a.isEmpty
    · simpa [ha] using cleanAdditional_length_le rest acc h
    · simp only [ha, Bool.false_eq_true, if_false]
      by_cases hmem : acc.contains a
      · simp only [hmem, if_true]
        by_cases h2 : 2 ≤ acc.length
        · simpa [h2] using le_trans h (by norm_num)
        · simpa [h2] using cleanAdditional_length_le rest acc h
      · simp only [hmem, Bool.false_eq_true, if_false]
        have hlen : (acc ++ [a]).length = acc.length + 1 := by simp
        by_cases h2 : 2 ≤ (acc ++ [a]).length
        · simp only [h2, if_true]
          omega
        · simp only [h2, if_false]
          exact cleanAdditional_length_le rest (acc ++ [a]) (by omega)

lemma padTo2_length {l : List Text} (h : l.length ≤ 2) : (padTo2 l).length = 2 := by
  match l, h with
  | [], _ => rfl
  | [a], _ => rfl
  | a :: b :: t, h =>
    have : t = [] := by
      simp only [List.length_cons] at h
      exact List.eq_nil_of_length_eq_zero (by omega)
    subst this
    rfl

lemma effPrimary_ne_nil {tech : TechOptions}
    (h : tech.primary ++ tech.additional ≠ []) : effPrimary tech ≠ [] := by
  unfold effPrimary
  rcases hp : tech.primary with _ | ⟨p, ps⟩
  · rcases ha : tech.additional with _ | ⟨a, as⟩
    · exact absurd (by simp [hp, ha]) h
    · simp [hp, ha]
  · simp [hp]

lemma effPrimary_subset {tech : TechOptions} {o : Text}
    (h : o ∈ effPrimary tech) : o ∈ tech.primary ++ tech.additional := by
  unfold effPrimary at h
  by_cases hc : tech.primary.isEmpty && !tech.additional.isEmpty
  · simp only [hc, if_true] at h
    simp [h]
  · simp only [hc, Bool.false_eq_true, if_false] at h
    simp [h]

lemma scoredPrimaryList_mem {tokens : List Text} {opts : List Text}
    {so : Nat × Text} (h : so ∈ scoredPrimaryList tokens opts) : so.2 ∈ opts := by
  unfold scoredPrimaryList at h
  rw [mem_sortStable] at h
  rcases List.mem_map.mp h with ⟨o, ho, rfl⟩
  exact ho

lemma scoredPrimaryList_length (tokens : List Text) (opts : List Text) :
    (scoredPrimaryList tokens opts).length = opts.length := by
  unfold scoredPrimaryList
  rw [length_sortStable, List.length_map]

lemma chooseMainOpt_mem {tokens : List Text} {primaryOpts additionalOpts : List Text}
    (h : primaryOpts ≠ []) :
    ∃ m, chooseMainOpt tokens primaryOpts additionalOpts = some m ∧ m ∈ primaryOpts := by
  have hlen : (scoredPrimaryList tokens primaryOpts).length = primaryOpts.length :=
    scoredPrimaryList_length tokens primaryOpts
  have hne : scoredPrimaryList tokens primaryOpts ≠ [] := by
    intro hnil
    rw [hnil] at hlen
    exact h (List.eq_nil_of_length_eq_zero hlen.symm)
  rcases List.exists_mem_of_ne_nil _ hne with ⟨so, _⟩
  rcases hhd : (scoredPrimaryList tokens primaryOpts).head? with _ | so'
  · exact absurd (List.head?_eq_none_iff.mp hhd) hne
  · unfold chooseMainOpt
    rw [hhd]
    by_cases hs : 0 < so'.1
    · refine ⟨so'.2, by simp [hs], ?_⟩
      exact scoredPrimaryList_mem (List.mem_of_mem_head? hhd)
    · rcases hp : primaryOpts.head? with _ | p
      · exact absurd (List.head?_eq_none_iff.mp hp) h
      · exact ⟨p, by simp [hs, hp], List.mem_of_mem_head? hp⟩

lemma pyPairGE_refl (a : Nat × Text) : pyPairGE a a = true := by
  simp [pyPairGE, lt_irrefl]

lemma pyPairGE_total (a b : Nat × Text) : (pyPairGE a b || pyPairGE b a) = true := by
  unfold pyPairGE
  by_cases h : a.1 = b.1
  · rcases lt_trichotomy a.2 b.2 with hlt | heq | hgt
    · simp [h, not_lt_of_lt hlt]
    · simp [h, heq, lt_irrefl]
    · simp [h, not_lt_of_lt hgt]
  · rcases Nat.lt_or_ge a.1 b.1 with hlt | hge
    · simp [h, Ne.symm h, hlt]
    · have : b.1 < a.1 := lt_of_le_of_ne hge (Ne.symm h)
      simp [h, Ne.symm h, this]

lemma pyPairGE_trans (a b c : Nat × Text)
    (h1 : pyPairGE a b = true) (h2 : pyPairGE b c = true) : pyPairGE a c = true := by
  unfold pyPairGE at *
  by_cases hab : a.1 = b.1 <;> by_cases hbc : b.1 = c.1
  · have hac : a.1 = c.1 := hab.trans hbc
    simp only [hab, if_true] at h1
    simp only [hbc, if_true] at h2
    simp only [hac, if_true]
    have hba : b.2 ≤ a.2 := not_lt.mp (by simpa using h1)
    have hcb : c.2 ≤ b.2 := not_lt.mp (by simpa using h2)
    simpa using not_lt.mpr (le_trans hcb hba)
  · simp only [hab, if_true] at h1
    simp only [hbc, if_false] at h2
    have hcb : c.1 < b.1 := by simpa using h2
    have hac : a.1 ≠ c.1 := by omega
    simp only [hac, if_false]
    simpa using (by omega : c.1 < a.1)
  · simp only [hab, if_false] at h1
    simp only [hbc, if_true] at h2
    have hba : b.1 < a.1 := by simpa using h1
    have hac : a.1 ≠ c.1 := by omega
    simp only [hac, if_false]
    simpa using (by omega : c.1 < a.1)
  · simp only [hab, if_false] at h1
    simp only [hbc, if_false] at h2
    have hba : b.1 < a.1 := by simpa using h1
    have hcb : c.1 < b.1 := by simpa using h2
    have hac : a.1 ≠ c.1 := by omega
    simp only [hac, if_false]
    simpa using (by omega : c.1 < a.1)

/-- The head of the descending-sorted scored list dominates every candidate
pair under the Python tuple order. -/
lemma scoredPrimaryList_head_max {tokens : List Text} {opts : List Text}
    {s : Nat} {m : Text}
    (hhead : (scoredPrimaryList tokens opts).head? = some (s, m)) :
    ∀ o ∈ opts, pyPairGE (s, m) (scoreOpt tokens o, o) = true := by
  intro o ho
  have hsorted : List.Pairwise (fun a b => pyPairGE a b = true)
      (scoredPrimaryList tokens opts) :=
    sorted_sortStable pyPairGE pyPairGE_trans pyPairGE_total
      (opts.map (fun o => (scoreOpt tokens o, o)))
  rcases List.head?_eq_some_iff.mp hhead with ⟨rest, hrest⟩
  have hmem : (scoreOpt tokens o, o) ∈ scoredPrimaryList tokens opts := by
    unfold scoredPrimaryList
    rw [mem_sortStable]
    exact List.mem_map_of_mem _ ho
  rw [hrest] at hmem hsorted
  rcases List.mem_cons.mp hmem with heq | hmem'
  · rw [heq]
    exact pyPairGE_refl _
  · exact (List.pairwise_cons.mp hsorted).1 _ hmem'

/-! #### Character-limit lemmas -/

lemma lastIndexOfAux_lt (c : Char) :
    ∀ (s : Text) (i : Nat) (acc : Option Nat) (j : Nat),
      (∀ k, acc = some k → k < i) →
      lastIndexOfAux c s i acc = some j → j < i + s.length
  | [], i, acc, j, hacc, h => by
    have hj := hacc j h
    simpa using lt_of_lt_of_le hj (Nat.le_add_right i 0)
  | x :: xs, i, acc, j, hacc, h => by
    have hacc' : ∀ k, (if x == c then some i else acc) = some k → k < i + 1 := by
      intro k hk
      by_cases hx : x == c
      · simp only [hx, if_true, Option.some.injEq] at hk
        omega
      · simp only [hx, Bool.false_eq_true, if_false] at hk
        exact lt_trans (hacc k hk) (Nat.lt_succ_self i)
    have := lastIndexOfAux_lt c xs (i + 1) _ j hacc' h
    simpa [Nat.add_assoc, Nat.add_comm 1 xs.length] using this

lemma pyRfind_lt {s : Text} {c : Char} {i : Nat}
    (h : pyRfind s c = some i) : i < s.length := by
  have := lastIndexOfAux_lt c s 0 none i (by intro k hk; cases hk) h
  simpa using this

lemma pyStrip_length_le (s : Text) : (pyStrip s).length ≤ s.length := by
  unfold pyStrip
  rw [List.length_reverse]
  calc ((s.dropWhile pyIsSpace).reverse.dropWhile pyIsSpace).length
      ≤ (s.dropWhile pyIsSpace).reverse.length := (List.dropWhile_sublist _).length_le
    _ = (s.dropWhile pyIsSpace).length := List.length_reverse _
    _ ≤ s.length := (List.dropWhile_sublist _).length_le

lemma endsWithPunct_ensurePunct (s : Text) : endsWithPunct (ensurePunct s) = true := by
  unfold ensurePunct
  by_cases h : endsWithPunct s
  · simp [h]
  · simp only [h, Bool.false_eq_true, if_false]
    unfold endsWithPunct
    rw [List.getLast?_concat]
    rfl

lemma ensurePunct_length_le (s : Text) : (ensurePunct s).length ≤ s.length + 1 := by
  unfold ensurePunct
  by_cases h : endsWithPunct s <;> simp [h]

lemma rewriteDescFallback_length_le (desc : Text) :
    (rewriteDescFallback desc).length ≤ 851 := by
  unfold rewriteDescFallback
  have htake : (desc.take 850).length ≤ 850 := by
    simp [List.length_take]
  have harg : (pyStrip (match truncCutoff (desc.take 850) with
      | some i => (desc.take 850).take i
      | none => desc.take 850)).length ≤ 850 := by
    rcases hcut : truncCutoff (desc.take 850) with _ | i
    · simpa using le_trans (pyStrip_length_le _) htake
    · refine le_trans (pyStrip_length_le _) ?_
      refine le_trans (by simp [List.length_take] : ((desc.take 850).take i).length ≤ (desc.take 850).length) htake
  calc (ensurePunct _).length ≤ _ + 1 := ensurePunct_length_le _
    _ ≤ 851 := by omega

lemma rewriteDescFallback_punct (desc : Text) :
    endsWithPunct (rewriteDescFallback desc) = true :=
  endsWithPunct_ensurePunct _

/-! ### Dict lemmas (for claims C9 and C10) -/

lemma find?_map_ne (k k' : String) (v : PyValue) (h : k' ≠ k) :
    ∀ d : PyDict,
      (d.map (fun p => if p.1 == k then (k, v) else p)).find? (fun p => p.1 == k') =
        d.find? (fun p => p.1 == k')
  | [] => rfl
  | p :: rest => by
    by_cases hp : p.1 == k
    · have hk : p.1 = k := by simpa using hp
      have hne : ¬ ((k, v).1 == k') = true := by
        simp only [beq_iff_eq]
        exact Ne.symm h
      have hne2 : ¬ (p.1 == k') = true := by
        rw [hk]
        simp only [beq_iff_eq]
        exact Ne.symm h
      rw [List.map_cons, if_pos hp,
        @List.find?_cons_of_neg _ (fun q => q.1 == k') (k, v) _ hne,
        @List.find?_cons_of_neg _ (fun q => q.1 == k') p _ hne2]
      exact find?_map_ne k k' v h rest
    · rw [List.map_cons, if_neg hp]
      by_cases hp' : (p.1 == k') = true
      · rw [@List.find?_cons_of_pos _ (fun q => q.1 == k') p _ hp',
          @List.find?_cons_of_pos _ (fun q => q.1 == k') p _ hp']
      · rw [@List.find?_cons_of_neg _ (fun q => q.1 == k') p _ hp',
          @List.find?_cons_of_neg _ (fun q => q.1 == k') p _ hp']
        exact find?_map_ne k k' v h rest

lemma find?_append_ne (k k' : String) (v : PyValue) (h : k' ≠ k) :
    ∀ d : PyDict,
      (d ++ [(k, v)]).find? (fun p => p.1 == k') = d.find? (fun p => p.1 == k')
  | [] => by
    have hne : ((k, v).1 == k') = false := by simpa using (Ne.symm h)
    simp [List.find?, hne]
  | p :: rest => by
    by_cases hp : p.1 == k'
    · simp [List.find?, hp]
    · simp [List.find?, hp, find?_append_ne k k' v h rest]

/-- Writing key `k` leaves every other key's lookup unchanged. -/
lemma dictGet_dictSet_ne (d : PyDict) (k k' : String) (v : PyValue) (h : k' ≠ k) :
    dictGet (dictSet d k v) k' = dictGet d k' := by
  unfold dictGet dictSet
  by_cases hany : d.any (fun p => p.1 == k)
  · simp only [hany, if_true]
    rw [find?_map_ne k k' v h d]
  · simp only [hany, Bool.false_eq_true, if_false]
    rw [find?_append_ne k k' v h d]

lemma dictGet_dictSet_aux_map (k : String) (v : PyValue) :
    ∀ d : PyDict, d.any (fun p => p.1 == k) = true →
      (d.map (fun p => if p.1 == k then (k, v) else p)).find? (fun p => p.1 == k)
        = some (k, v)
  | [], h => by simp at h
  | p :: rest, h => by
    by_cases hp : (p.1 == k) = true
    · rw [List.map_cons, if_pos hp,
        @List.find?_cons_of_pos _ (fun q => q.1 == k) (k, v) _ (by simp)]
    · rw [List.map_cons, if_neg hp,
        @List.find?_cons_of_neg _ (fun q => q.1 == k) p _ hp]
      apply dictGet_dictSet_aux_map k v rest
      rcases List.any_eq_true.mp h with ⟨q, hq, hqk⟩
      rcases List.mem_cons.mp hq with rfl | hq'
      · exact absurd hqk hp
      · exact List.any_eq_true.mpr ⟨q, hq', hqk⟩

/-- Writing key `k` makes its lookup the written value. -/
lemma dictGet_dictSet_self (d : PyDict) (k : String) (v : PyValue) :
    dictGet (dictSet d k v) k = some v := by
  unfold dictGet dictSet
  by_cases hany : d.any (fun p => p.1 == k)
  · rw [if_pos hany, dictGet_dictSet_aux_map k v d hany]
    rfl
  · rw [if_neg hany]
    have hfalse : ∀ p ∈ d, ¬ (p.1 == k) = true := by
      intro p hp hpk
      exact hany (List.any_eq_true.mpr ⟨p, hp, hpk⟩)
    have : (d ++ [(k, v)]).find? (fun p => p.1 == k) = some (k, v) := by
      clear hany
      induction d with
      | nil =>
        rw [List.nil_append,
          @List.find?_cons_of_pos _ (fun q => q.1 == k) (k, v) _ (by simp)]
      | cons p rest ih =>
        rw [List.cons_append,
          @List.find?_cons_of_neg _ (fun q => q.1 == k) p _ (hfalse p (by simp))]
        exact ih (fun q hq => hfalse q (by simp [hq]))
    rw [this]
    rfl

/-! ### RecordNormalizer lemmas (claim C9) -/

lemma canonKey_cases (k : String) :
    canonKey k = k ∨ canonKey k ∈ (["Category", "Main Technology",
      "Additional Technologies", "Internal Notes", "Views", "URL", "Audience",
      "Date"] : List String) := by
  unfold canonKey
  split_ifs <;> simp

lemma canonKey_fixed_canonical :
    ∀ r ∈ (["Category", "Main Technology", "Additional Technologies",
      "Internal Notes", "Views", "URL", "Audience", "Date"] : List String),
      canonKey r = r := by
  decide

lemma canonKey_idem (k : String) : canonKey (canonKey k) = canonKey k := by
  rcases canonKey_cases k with h | h
  · rw [h]
    exact h
  · exact canonKey_fixed_canonical _ h

lemma map_fst_dictSet (d : PyDict) (k : String) (v : PyValue) :
    (dictSet d k v).map Prod.fst =
      if d.any (fun p => p.1 == k) then d.map Prod.fst
      else d.map Prod.fst ++ [k] := by
  unfold dictSet
  by_cases hany : d.any (fun p => p.1 == k)
  · rw [if_pos hany, if_pos hany, List.map_map]
    apply List.map_congr_left
    intro p _
    by_cases hpk : (p.1 == k) = true
    · have hk : p.1 = k := by simpa using hpk
      simp [Function.comp, hpk, hk]
    · simp [Function.comp, hpk]
  · rw [if_neg hany, if_neg hany]
    simp

/-- Along the rebuild fold, all accumulated keys stay `canonKey`-fixed and
pairwise distinct. -/
lemma canonFold_invariant :
    ∀ (l : List (String × PyValue)) (acc : PyDict),
      (∀ k ∈ acc.map Prod.fst, canonKey k = k) →
      ((acc.map Prod.fst).Nodup) →
      (∀ k ∈ (l.foldl (fun acc kv => dictSet acc (canonKey kv.1) kv.2) acc).map
          Prod.fst, canonKey k = k) ∧
        ((l.foldl (fun acc kv => dictSet acc (canonKey kv.1) kv.2) acc).map
          Prod.fst).Nodup
  | [], acc, hfix, hnd => ⟨hfix, hnd⟩
  | kv :: rest, acc, hfix, hnd => by
    rw [List.foldl_cons]
    apply canonFold_invariant rest
    · intro k hk
      rw [map_fst_dictSet] at hk
      by_cases hany : acc.any (fun p => p.1 == canonKey kv.1)
      · rw [if_pos hany] at hk
        exact hfix k hk
      · rw [if_neg hany] at hk
        rcases List.mem_append.mp hk with h | h
        · exact hfix k h
        · have : k = canonKey kv.1 := by simpa using h
          rw [this]
          exact canonKey_idem kv.1
    · rw [map_fst_dictSet]
      by_cases hany : acc.any (fun p => p.1 == canonKey kv.1)
      · rwa [if_pos hany]
      · rw [if_neg hany]
        have hnotin : canonKey kv.1 ∉ acc.map Prod.fst := by
          intro hmem
          rcases List.mem_map.mp hmem with ⟨p, hp, hfst⟩
          exact hany (List.any_eq_true.mpr ⟨p, hp, by simp [hfst]⟩)
        rw [List.nodup_append]
        exact ⟨hnd, List.nodup_singleton _, by
          intro a ha hb
          have : a = canonKey kv.1 := by simpa using hb
          exact hnotin (this ▸ ha)⟩

/-- Rebuilding an already-canonical dict with unique keys reproduces it. -/
lemma canonFold_fixed :
    ∀ (l : List (String × PyValue)) (acc : PyDict),
      (∀ kv ∈ l, canonKey kv.1 = kv.1) →
      (((acc ++ l).map Prod.fst).Nodup) →
      l.foldl (fun acc kv => dictSet acc (canonKey kv.1) kv.2) acc = acc ++ l
  | [], acc, _, _ => by simp
  | (k, v) :: rest, acc, hfix, hnd => by
    have hk : canonKey k = k := hfix (k, v) (by simp)
    have hkeys : ((acc.map Prod.fst) ++ k :: rest.map Prod.fst).Nodup := by
      simpa using hnd
    have hnotin : ¬ acc.any (fun p => p.1 == k) = true := by
      intro hany
      rcases List.any_eq_true.mp hany with ⟨p, hp, hpk⟩
      have hpk' : p.1 = k := by simpa using hpk
      exact (List.nodup_append.mp hkeys).2.2
        (hpk' ▸ List.mem_map_of_mem Prod.fst hp) (by simp)
    rw [List.foldl_cons, hk,
      show dictSet acc k v = acc ++ [(k, v)] from by
        unfold dictSet
        rw [if_neg hnotin],
      canonFold_fixed rest (acc ++ [(k, v)])
        (fun kv hkv => hfix kv (by simp [hkv]))
        (by simpa [List.append_assoc] using hnd),
      List.append_assoc]
    rfl

lemma quantityMissing_normalize (activity : PyDict) :
    quantityMissing (normalizeActivityKeys activity) = false := by
  unfold normalizeActivityKeys
  by_cases hq : quantityMissing (canonFold activity)
  · simp only [hq, if_true]
    unfold quantityMissing
    rw [dictGet_dictSet_self]
    rfl
  · simp only [hq, Bool.false_eq_true, if_false]

/-! ## Claim theorems -/

/-! ### Claim C2 -/

/-- C2: for every in-window failure count `c ≥ 1` the backoff computation
returns `d + j`, where the deterministic part `d` is
`base * 2^min(c-1, 6)` floored at 10 seconds once `c ≥ 5` (exactly the
spec's wording, `backoffDelaySpecWording`), the jitter `j` lies in
`[0, min(1, d/10)]`, and in particular the 6th signal of a window yields a
total delay of at least 10 seconds for every positive base. -/
theorem computeBackoff_formula (base j : ℚ) (c : Nat) (hc : 1 ≤ c)
    (hj0 : 0 ≤ j) (hj : j ≤ jitterBound base c) :
    computeBackoff base c j = backoffDelaySpecWording base c + j ∧
    jitterBound base c = min 1 (backoffDelaySpecWording base c * (1 / 10)) ∧
    (c = 6 → 0 < base → 10 ≤ computeBackoff base c j) := by
  refine ⟨rfl, rfl, ?_⟩
  intro h6 _hb
  subst h6
  have h10 : (10 : ℚ) ≤ backoffDelay base 6 :=
    le_backoffDelay_of_five_le base (by norm_num)
  unfold computeBackoff
  linarith

/-- Witness for C2 at `base = 1/2` (the normal preset), `c = 6`, `j = 0`. -/
theorem computeBackoff_formula_witness :
    (1 ≤ 6 ∧ (0 : ℚ) ≤ 0 ∧ (0 : ℚ) ≤ jitterBound (1/2) 6) ∧
    (computeBackoff (1/2) 6 0 = backoffDelaySpecWording (1/2) 6 + 0 ∧
      jitterBound (1/2) 6 = min 1 (backoffDelaySpecWording (1/2) 6 * (1 / 10)) ∧
      (6 = 6 → (0 : ℚ) < 1/2 → 10 ≤ computeBackoff (1/2) 6 0)) := by
  have hb : (0 : ℚ) ≤ jitterBound (1/2) 6 := by
    norm_num [jitterBound, backoffDelay]
  exact ⟨⟨by norm_num, le_refl 0, hb⟩,
    computeBackoff_formula (1/2) 0 6 (by norm_num) (le_refl 0) hb⟩

/-! ### Claim C4 -/

/-- C4 counterexample: with the fast-mode base `0.25`, the 5th signal may
return `10 + 1 = 11` (jitter drawn at its bound `min(1, 10·0.1) = 1`) while
the 6th returns `10 + 0 = 10`: the returned delays are NOT monotonically
non-decreasing for all values of the jitter. -/
theorem backoff_jitter_not_monotone :
    ((0 : ℚ) ≤ 1 ∧ (1 : ℚ) ≤ jitterBound (1/4) 5) ∧
    ((0 : ℚ) ≤ 0 ∧ (0 : ℚ) ≤ jitterBound (1/4) 6) ∧
    computeBackoff (1/4) 6 0 < computeBackoff (1/4) 5 1 := by
  norm_num [jitterBound, backoffDelay, computeBackoff]

/-- C4 (amended): within a window the deterministic pre-jitter delay is
monotonically non-decreasing in the consecutive-failure count (for every
non-negative base); the returned delay can decrease only by the added
jitter, which the counterexample shows can actually happen. -/
theorem backoffDelay_monotone (base : ℚ) (c c' : Nat) (hb : 0 ≤ base)
    (h : c ≤ c') : backoffDelay base c ≤ backoffDelay base c' :=
  backoffDelay_mono hb h

/-- Witness for the amended C4 at `base = 1/2`, counts 2 ≤ 3. -/
theorem backoffDelay_monotone_witness :
    (0 : ℚ) ≤ 1/2 ∧ 2 ≤ 3 ∧ backoffDelay (1/2) 2 ≤ backoffDelay (1/2) 3 :=
  ⟨by norm_num, by norm_num, backoffDelay_monotone (1/2) 2 3 (by norm_num) (by norm_num)⟩

/-! ### Claim C8 -/

/-- C8: if every previous overload signal happened at or before `tlast` and
the next signal arrives more than 60 seconds after `tlast`, then
`_compute_backoff` first resets the window (failure count to zero, circuit
closed) and processes the new signal as count 1: the pre-jitter delay it
returns is exactly the configured base, the stored count becomes 1 and the
circuit is closed. -/
theorem backoff_window_reset (base tlast next : ℚ) (times : List ℚ)
    (hts : ∀ t ∈ times, t ≤ tlast) (hnext : tlast + 60 < next) :
    (backoffStep base (backoffRun base initBackoffState times) next).2 = base ∧
    (backoffStep base (backoffRun base initBackoffState times) next).1.recent429 = 1 ∧
    (backoffStep base (backoffRun base initBackoffState times) next).1.circuitOpen = false := by
  have hfirst := backoffRun_first_le base tlast times initBackoffState hts (Or.inl rfl)
  have hw : windowExpired (backoffRun base initBackoffState times) next = true := by
    rcases hfirst with h | ⟨t0, h, ht0⟩
    · simp [windowExpired, h]
    · simp only [windowExpired, h]
      rw [decide_eq_true_eq]
      linarith
  refine ⟨?_, ?_, ?_⟩
  · simp [backoffStep, hw]
    norm_num [backoffDelay]
  · simp [backoffStep, hw]
  · simp [backoffStep, hw]

/-- Witness for C8: a fresh controller with no prior signals (all prior
times ≤ 0) receiving its next signal at t = 61 > 0 + 60. -/
theorem backoff_window_reset_witness :
    ((∀ t ∈ ([] : List ℚ), t ≤ 0) ∧ (0 : ℚ) + 60 < 61) ∧
    ((backoffStep (1/2) (backoffRun (1/2) initBackoffState []) 61).2 = 1/2 ∧
      (backoffStep (1/2) (backoffRun (1/2) initBackoffState []) 61).1.recent429 = 1 ∧
      (backoffStep (1/2) (backoffRun (1/2) initBackoffState []) 61).1.circuitOpen = false) :=
  ⟨⟨by simp, by norm_num⟩,
    backoff_window_reset (1/2) 0 61 [] (by simp) (by norm_num)⟩

/-! ### Claim C1 -/

/-- C1 (code bug witness): when every executor attempt fails with a
rate-limited error (message containing `429`), the `submit_activity` retry
loop consumes all 3 attempts via `continue` and then falls off the `for`
loop: the function returns `None` without raising any "retries exhausted"
failure, and the caller cannot distinguish this from a successful
submission. -/
theorem submit_rate_exhaustion_returns_none :
    submitActivityLoop (fun _ => .failure "429 Too Many Requests".toList) 0
      = (.returnedNoneExhausted, 3) ∧
    SubmitResult.isRaise .returnedNoneExhausted = false := by
  constructor
  · decide
  · rfl

/-! ### Claim C3 -/

/-- C3 counterexample: for an executor that always raises a `Fatal`-classified
error (message "boom": neither rate-limited nor snapshot-related),
`run_automation` marks the record failed only after 3 executor attempts —
its outer per-record loop re-invokes `submit_activity` twice more after the
fatal error — contradicting "marked failed after exactly one attempt". -/
theorem fatal_record_three_attempts :
    processRecord (fun _ => .failure "boom".toList) = (false, 3) ∧ (3 : Nat) ≠ 1 := by
  constructor
  · decide
  · decide

/-- C3 (amended): a `Fatal`-classified error on the first attempt is
propagated out of `submit_activity` immediately, after exactly one executor
attempt and with no retry inside `submit_activity`; however the
orchestrator's outer loop (`max_activity_retries = 3`) re-runs the whole
submission, so the record is marked failed only after three executor
attempts in total. -/
theorem fatal_first_attempt_behavior (msg : Text) (exec : Nat → ExecOutcome)
    (hexec : ∀ n, exec n = .failure msg)
    (hrate : isRateMsg msg = false) (hsnap : isSnapshotMsg msg = false) :
    submitActivityLoop exec 0 = (.raisedFatal msg, 1) ∧
    processRecord exec = (false, 3) := by
  have hsub : ∀ start, submitActivityLoop exec start = (.raisedFatal msg, 1) := by
    intro start
    simp [submitActivityLoop, submitGo, hexec start, hrate, hsnap]
  refine ⟨hsub 0, ?_⟩
  simp [processRecord, processRecordGo, hsub, SubmitResult.isRaise]

/-- Witness for the amended C3 with the concrete fatal message "boom". -/
theorem fatal_first_attempt_behavior_witness :
    submitActivityLoop (fun _ => .failure "boom!".toList) 0
      = (.raisedFatal "boom!".toList, 1) ∧
    processRecord (fun _ => .failure "boom!".toList) = (false, 3) :=
  fatal_first_attempt_behavior "boom!".toList _ (fun _ => rfl) (by decide) (by decide)

/-! ### Claim C5 -/

/-- C5 counterexample: an option set whose single primary option is the
empty string is non-empty, yet `_choose_tech_areas` returns an empty main
choice for it (its zero-score fallback picks `primary_opts[0] = ""`). -/
theorem chooseTechAreas_empty_main_counterexample :
    (TechOptions.mk [[]] []).primary.length = 1 ∧
    (chooseTechAreas [] [] (TechOptions.mk [[]] [])).1 = [] := by
  constructor
  · rfl
  · decide

/-- C5 (amended): `_choose_tech_areas` always returns exactly two
additional-choice slots (unfilled slots are the empty string), and the main
choice is non-empty whenever the option set contains at least one option
and no option is itself the empty string (an empty-string option can be
chosen by the zero-score fallback, as the counterexample shows). -/
theorem chooseTechAreas_shape (title description : Text) (tech : TechOptions) :
    ((chooseTechAreas title description tech).2).length = 2 ∧
    (tech.primary ++ tech.additional ≠ [] →
      (∀ o ∈ tech.primary ++ tech.additional, o ≠ ([] : Text)) →
      (chooseTechAreas title description tech).1 ≠ []) := by
  constructor
  · rw [chooseTechAreas_snd]
    exact padTo2_length (cleanAdditional_length_le _ [] (by norm_num))
  · intro hne hopts
    rw [chooseTechAreas_fst]
    rcases @chooseMainOpt_mem (choiceTokens title description) (effPrimary tech)
        tech.additional (effPrimary_ne_nil hne) with
      ⟨m, hm, hmem⟩
    rw [hm]
    exact hopts m (effPrimary_subset hmem)

/-- Witness for the amended C5 on a concrete two-option set. -/
theorem chooseTechAreas_shape_witness :
    ((chooseTechAreas [] [] (TechOptions.mk ["Azure".toList] ["Python".toList])).2).length = 2 ∧
    (chooseTechAreas [] [] (TechOptions.mk ["Azure".toList] ["Python".toList])).1 ≠ [] :=
  ⟨(chooseTechAreas_shape [] [] _).1,
   (chooseTechAreas_shape [] [] _).2 (by decide) (by decide)⟩

/-! ### Claim C7 -/

/-- C7 counterexample: with title `"apple zebra"`, options `"Apple"` and
`"Zebra"` score equally (both positive), yet the main choice is `"Zebra"`
— the lexicographically greatest — not the first-seen `"Apple"`:
`list.sort(reverse=True)` on `(score, option)` tuples breaks score ties by
descending string order, not source order. -/
theorem chooseTechAreas_tie_counterexample :
    scoreOpt (choiceTokens "apple zebra".toList []) "Apple".toList
      = scoreOpt (choiceTokens "apple zebra".toList []) "Zebra".toList ∧
    0 < scoreOpt (choiceTokens "apple zebra".toList []) "Apple".toList ∧
    (chooseTechAreas "apple zebra".toList []
      (TechOptions.mk ["Apple".toList, "Zebra".toList] [])).1 = "Zebra".toList ∧
    "Zebra".toList ≠ "Apple".toList := by
  refine ⟨by decide, by decide, by decide, by decide⟩

/-- C7 (amended): when the top-scored candidate has positive score, the
main choice is the head of the descending-sorted scored list, and that head
dominates every candidate of the (substituted) primary list under the
Python tuple order `pyPairGE` — i.e. it maximises the score, with ties
among equal scores resolved toward the code-point-wise greatest option
string (not the first-seen one). -/
theorem chooseMain_tie_break (title description : Text) (tech : TechOptions)
    (s : Nat) (m : Text)
    (hhead : (scoredPrimaryList (choiceTokens title description)
      (effPrimary tech)).head? = some (s, m))
    (hs : 0 < s) :
    (chooseTechAreas title description tech).1 = m ∧
    ∀ o ∈ effPrimary tech,
      pyPairGE (s, m) (scoreOpt (choiceTokens title description) o, o) = true := by
  constructor
  · rw [chooseTechAreas_fst]
    unfold chooseMainOpt
    rw [hhead]
    simp [hs]
  · exact scoredPrimaryList_head_max hhead

/-- Witness for the amended C7: concrete tie between `"Cloud"` and
`"Azure"`, resolved to `"Cloud"`. -/
theorem chooseMain_tie_break_witness :
    (chooseTechAreas "azure cloud".toList []
      (TechOptions.mk ["Azure".toList, "Cloud".toList] [])).1 = "Cloud".toList ∧
    ∀ o ∈ effPrimary (TechOptions.mk ["Azure".toList, "Cloud".toList] []),
      pyPairGE (2, "Cloud".toList)
        (scoreOpt (choiceTokens "azure cloud".toList []) o, o) = true :=
  chooseMain_tie_break "azure cloud".toList [] _ 2 "Cloud".toList (by decide) (by decide)

/-! ### Claim C6 -/

set_option maxRecDepth 20000 in
/-- C6 counterexample: a 1200-character Description consisting solely of
the letter `a` (no sentence or word boundary), with an empty cache and a
failing text generator, is stored as 850 characters plus an appended
period: 851 characters, exceeding the claimed 850-character bound. -/
theorem enforceDescription_851_counterexample :
    (enforceDescription none none (List.replicate 1200 'a')).length = 851 ∧
    ¬ (enforceDescription none none (List.replicate 1200 'a')).length ≤ 850 := by
  constructor
  · decide
  · decide

/-- C6 (amended): for a Description exceeding 1000 characters, when the
cache has no entry and the text generator fails (the deterministic local
fallback), the stored Description is at most **851** characters (the
terminal `.` can be appended to a full 850-character cut) and always ends
with `.`, `!` or `?`.  (A successful generation of 850 characters or fewer
is stored as-is with no punctuation or boundary guarantee, and a truthy
cached value is stored verbatim, so neither bound extends to those paths.) -/
theorem enforceDescription_fallback_shape (desc : Text) (h : 1000 < desc.length) :
    (enforceDescription none none desc).length ≤ 851 ∧
    endsWithPunct (enforceDescription none none desc) = true := by
  have hi : enforceDescription none none desc = rewriteDescFallback desc := by
    simp [enforceDescription, enforceDescriptionGen, h]
  rw [hi]
  exact ⟨rewriteDescFallback_length_le desc, rewriteDescFallback_punct desc⟩

/-- Witness for the amended C6 on a concrete 1001-character Description. -/
theorem enforceDescription_fallback_shape_witness :
    1000 < (List.replicate 1001 'a').length ∧
    (enforceDescription none none (List.replicate 1001 'a')).length ≤ 851 ∧
    endsWithPunct (enforceDescription none none (List.replicate 1001 'a')) = true :=
  ⟨by rw [List.length_replicate]; norm_num,
   enforceDescription_fallback_shape (List.replicate 1001 'a')
     (by rw [List.length_replicate]; norm_num)⟩

/-! ### Claim C9 -/

/-- C9: `_normalize_activity_keys` is idempotent on every activity mapping:
the rebuilt dict has canonical, pairwise-distinct keys only and a `Quantity`
value that is neither `None` nor the empty string, so a second pass rebuilds
it verbatim and leaves `Quantity` untouched. -/
theorem normalizeActivityKeys_idempotent (activity : PyDict) :
    normalizeActivityKeys (normalizeActivityKeys activity)
      = normalizeActivityKeys activity := by
  rcases canonFold_invariant activity [] (by simp) (by simp) with ⟨hfix0, hnd0⟩
  have hfix : ∀ k ∈ (normalizeActivityKeys activity).map Prod.fst, canonKey k = k := by
    unfold normalizeActivityKeys
    by_cases hq : quantityMissing (canonFold activity)
    · simp only [hq, if_true]
      intro k hk
      rw [map_fst_dictSet] at hk
      by_cases hany : (canonFold activity).any (fun p => p.1 == "Quantity")
      · rw [if_pos hany] at hk
        exact hfix0 k hk
      · rw [if_neg hany] at hk
        rcases List.mem_append.mp hk with h | h
        · exact hfix0 k h
        · have : k = "Quantity" := by simpa using h
          rw [this]
          decide
    · simp only [hq, Bool.false_eq_true, if_false]
      exact hfix0
  have hnd : ((normalizeActivityKeys activity).map Prod.fst).Nodup := by
    unfold normalizeActivityKeys
    by_cases hq : quantityMissing (canonFold activity)
    · simp only [hq, if_true]
      rw [map_fst_dictSet]
      by_cases hany : (canonFold activity).any (fun p => p.1 == "Quantity")
      · rwa [if_pos hany]
      · rw [if_neg hany]
        have hnotin : "Quantity" ∉ (canonFold activity).map Prod.fst := by
          intro hmem
          rcases List.mem_map.mp hmem with ⟨p, hp, hfst⟩
          exact hany (List.any_eq_true.mpr ⟨p, hp, by simp [hfst]⟩)
        rw [List.nodup_append]
        exact ⟨hnd0, List.nodup_singleton _, by
          intro a ha hb
          have : a = "Quantity" := by simpa using hb
          exact hnotin (this ▸ ha)⟩
    · simp only [hq, Bool.false_eq_true, if_false]
      exact hnd0
  have hfold : canonFold (normalizeActivityKeys activity) = normalizeActivityKeys activity := by
    unfold canonFold
    have := canonFold_fixed (normalizeActivityKeys activity) []
      (fun kv hkv => hfix kv.1 (List.mem_map_of_mem Prod.fst hkv))
      (by simpa using hnd)
    simpa using this
  have hq2 : quantityMissing (normalizeActivityKeys activity) = false :=
    quantityMissing_normalize activity
  conv_lhs => rw [normalizeActivityKeys]
  rw [hfold, hq2]
  simp

/-! ### Claim C10 -/

/-- C10: the field-preparation phase of `submit_activity` operates on the
working copy made by `activity_data = dict(activity_data)` and writes only
the transient submission-derived fields `Audience`, `Main Technology`,
`Additional Technologies` and `Internal Notes`: the lookup of every other
key — in particular every canonical source field (`Category`, `Title`,
`Description`, `URL`, `Date`, `Quantity`, ...) — is exactly the caller's
value, for every target-audience cache state, option table and record.
(The caller's own dict is never written at all: the Python copy makes all
mutation local, which is what this pure embedding realises.) -/
theorem submitPrepare_frame (taOptions : Option (List String)) (tech : TechOptions)
    (record : PyDict) (k : String)
    (h1 : k ≠ "Audience") (h2 : k ≠ "Main Technology")
    (h3 : k ≠ "Additional Technologies") (h4 : k ≠ "Internal Notes") :
    dictGet (submitActivityPrepare taOptions tech record) k = dictGet record k := by
  unfold submitActivityPrepare
  simp only []
  split
  · rw [dictGet_dictSet_ne _ _ _ _ h3, dictGet_dictSet_ne _ _ _ _ h2,
      dictGet_dictSet_ne _ _ _ _ h1]
  · rw [dictGet_dictSet_ne _ _ _ _ h4, dictGet_dictSet_ne _ _ _ _ h3,
      dictGet_dictSet_ne _ _ _ _ h2, dictGet_dictSet_ne _ _ _ _ h1]

/-- Witness for C10: a concrete record keeps its `Title` (and the statement
is instantiated at `k = "Title"`). -/
theorem submitPrepare_frame_witness :
    dictGet
      (submitActivityPrepare none (TechOptions.mk [] [])
        [("Title", PyValue.str "T"), ("Description", PyValue.str "D")])
      "Title"
      = dictGet [("Title", PyValue.str "T"), ("Description", PyValue.str "D")] "Title" :=
  submitPrepare_frame none (TechOptions.mk [] [])
    [("Title", PyValue.str "T"), ("Description", PyValue.str "D")] "Title"
    (by decide) (by decide) (by decide) (by decide)

end FormPilot

